import Mathlib

/-!
Verification development for the `imagefiltercpp` sample (IFF SDK glue code,
`src/imagefiltercpp.cpp`).  The C++ program is embedded shallowly:

* configuration loading and validation in `main` (lines 58-93) becomes
  `validate` over a small JSON value type, with the whole startup/shutdown
  control flow captured as the action trace produced by `mainRun`;
* the chain-construction loop (lines 95-106), which builds a
  `std::map<std::string, chain>` via `emplace` (insert-if-absent), becomes
  `buildChainsGo` / `buildChains`, also emitting construct/register/release
  actions per iteration;
* the export callback (lines 158-182) becomes `export_callback`, a pure
  function from the lease result, the frame data and size, and the metadata
  to the ordered list of externally visible actions it performs plus the
  final buffer contents and the enqueued entry, if any;
* the worker loop `process` (lines 112-155) together with the producer is
  modelled as a labelled transition system `WStep` on `WorkerState`: the
  queue is a FIFO `List`, `enq` appends at the back (producer), `deq` pops
  the front, applies the in-place transform and forwards to the sink
  (`push_import_buffer`), `setStop` sets `stop_processing`, and `finish`
  (worker return) fires only when the queue is observed empty with the stop
  flag set, exactly mirroring the loop structure of `process`;
* the crosshair transform (lines 123-144) becomes `crosshairWrites`, the
  ordered list of (byte index, value) stores the two nested loop nests
  perform, and `drawCrosshair`, the resulting in-place update of the frame
  (a total function `Nat → Nat` from byte index to byte value).

Machine arithmetic: `width`, `height`, `padding` and the loop counters are
`uint32_t`; the wrapping subtractions `height/2 - 100`, `width/2 - 2`,
`width/2 - 100`, `height/2 - 2` are modelled exactly by `sub32`.  The index
arithmetic `y * stride + x * bpp + c` is carried out in `size_t`; it is
modelled as exact `Nat` arithmetic (for any buffer that fits in an address
space the products cannot reach `2^64`).
-/

namespace ImageFilter

/-- JSON values as produced by the permissive configuration parser
(`nlohmann::json::parse` with comments allowed). -/
inductive Json where
  | jnull
  | jbool (b : Bool)
  | jnum (n : Int)
  | jstr (s : String)
  | jarr (elems : List Json)
  | jobj (fields : List (String × Json))

/-- Key lookup on a JSON value (`config.find(key)`): yields `none` (`end()`)
when the key is absent or the value is not an object. -/
def jfind (j : Json) (key : String) : Option Json :=
  match j with
  | .jobj fields => (fields.find? (fun p => p.1 == key)).map (fun p => p.2)
  | _ => none

/-- Configuration validation of `main` (lines 60-91).  The input is the
parse result (`.error e` when `nlohmann::json::parse` threw `e`).  Returns
the `chains` array on success, or the exact message written to `std::cerr`
on failure; the checks run in source order: parse, `chains` present,
`chains` an array, `chains` non-empty, `IFF` present. -/
def validate (input : Except String Json) : Except String (List Json) :=
  match input with
  | .error e => .error ("Invalid configuration provided: " ++ e)
  | .ok config =>
    match jfind config "chains" with
    | none => .error ("Invalid configuration provided: " ++ "missing `chains` section")
    | some chains =>
      match chains with
      | .jarr elems =>
        if elems.isEmpty then
          .error ("Invalid configuration provided: " ++ "section `chains` must not be empty")
        else
          match jfind config "IFF" with
          | none => .error ("Invalid configuration provided: " ++ "missing `IFF` section")
          | some _ => .ok elems
      | _ => .error ("Invalid configuration provided: " ++ "section `chains` must be an array")

/-- Modelled from the spec: the five fatal configuration conditions the spec
enumerates (unparseable input, missing `chains`, `chains` not an array,
`chains` empty, missing `IFF`), written from the spec's words to be compared
with the source-derived `validate`. -/
def specRejects (input : Except String Json) : Bool :=
  match input with
  | .error _ => true
  | .ok config =>
    match jfind config "chains" with
    | none => true
    | some (.jarr elems) => elems.isEmpty || (jfind config "IFF").isNone
    | some _ => true

/-- Externally visible actions of `main`, in program order. -/
inductive MainAction where
  | errOut (msg : String)
  | initializeIFF
  | constructChain (idx : Nat) (id : String)
  | registerChain (idx : Nat) (id : String)
  | releaseChain (idx : Nat)
  | startWorker
  | setExportCallbackA
  | executeOnCmd
  | executeOffCmd
  | setStopFlag
  | joinWorker
  | clearChains
  | finalizeIFF
  | faultNullChain (id : String)
  deriving DecidableEq

/-- Chain-construction loop (lines 96-106) over the list of `id` strings of
the `chains` array, with running chain index `idx` and registry accumulator
`m`.  Every iteration constructs the chain object; `chains.emplace(id, ...)`
inserts only if the key is absent (`std::map::emplace`), so a duplicate id is
never registered and its chain object is released within that iteration. -/
def buildChainsGo : List String → Nat → List (String × Nat) → List (String × Nat) × List MainAction
  | [], _, m => (m, [])
  | id :: rest, idx, m =>
    if (m.find? (fun p => p.1 == id)).isSome then
      let r := buildChainsGo rest (idx + 1) m
      (r.1, .constructChain idx id :: .releaseChain idx :: r.2)
    else
      let r := buildChainsGo rest (idx + 1) (m ++ [(id, idx)])
      (r.1, .constructChain idx id :: .registerChain idx id :: r.2)

/-- Pipeline Registry built by the chain-construction loop, starting from an
empty `std::map` and chain index 0, plus the per-iteration action trace. -/
def buildChains (ids : List String) : List (String × Nat) × List MainAction :=
  buildChainsGo ids 0 []

/-- Chain ids extracted from the `chains` array:
`chain_config["id"].get<std::string>()` per element (elements without a
string `id` are outside the defined behaviour of the program and dropped). -/
def chainIds (elems : List Json) : List String :=
  elems.filterMap (fun c =>
    match jfind c "id" with
    | some (.jstr s) => some s
    | _ => none)

/-- Control flow of `main` as an action trace, the exit status of the run
(`some 1` = `EXIT_FAILURE` on a validation error, `some 0` = `EXIT_SUCCESS`
on normal completion, `none` when the run faults and never returns from
`main`), and the Pipeline Registry after the construction loop.  On a
validation failure the only action is the error message on `std::cerr`.
Otherwise `main` initializes the subsystem, constructs the chains and
starts the worker thread (line 156); the first registry access follows at
line 158: `chains["export"]` on a registry without an `"export"` entry
default-constructs a null `shared_ptr` and the `->set_export_callback` call
dereferences it — the run ends at that fault, registering no callback and
issuing no command.  With an `"export"` entry present the main path
registers the export callback, issues the on/off commands, stops and joins
the worker, clears the registry, finalizes the subsystem and returns 0. -/
def mainRun (input : Except String Json) : List MainAction × Option Nat × List (String × Nat) :=
  match validate input with
  | .error msg => ([.errOut msg], some 1, [])
  | .ok elems =>
    let bc := buildChains (chainIds elems)
    if ((bc.1.find? (fun p => p.1 == "export")).isSome) then
      (.initializeIFF :: bc.2 ++
        [.startWorker, .setExportCallbackA, .executeOnCmd, .executeOffCmd,
         .setStopFlag, .joinWorker, .clearChains, .finalizeIFF], some 0, bc.1)
    else
      (.initializeIFF :: bc.2 ++ [.startWorker, .faultNullChain "export"], none, bc.1)

/-- Frame metadata fields used by the program (`iff::image_metadata`):
`width`, `height` and `padding` are `uint32_t` values. -/
structure image_metadata where
  width : Nat
  height : Nat
  padding : Nat
  deriving DecidableEq

/-- Externally visible actions of the export callback, in program order. -/
inductive CbAction where
  | getBufferA
  | copyA (size : Nat)
  | enqueueA
  | notifyA
  | logErrorA (msg : String)
  | releaseA
  deriving DecidableEq

/-- Result of one export-callback invocation: the ordered action trace, the
final contents of the leased buffer (when one was leased), and the entry
appended to the processing queue (when one was enqueued). -/
structure CbResult where
  actions : List CbAction
  buffer : Option (Nat → Nat)
  enq : Option ((Nat → Nat) × image_metadata)

/-- Byte-level semantics of `std::memcpy(dst, src, n)`: the first `n` bytes
come from `src`, all bytes at and beyond `n` keep their `dst` value. -/
def memcpyFn (dst src : Nat → Nat) (n : Nat) : Nat → Nat :=
  fun i => if i < n then src i else dst i

/-- Exact error message built at lines 176-177 for a capacity mismatch. -/
def capMsg (buffer_size size : Nat) : String :=
  "Got import buffer size less than export buffer size (" ++ toString buffer_size ++ " < " ++ toString size ++ ")"

/-- Export callback registered at lines 158-182.  `lease` is the result of
`get_import_buffer` (`none` for a null buffer, otherwise the buffer contents
and `buffer_size`); `data`/`size`/`metadata` are the callback arguments.  On
a null buffer the callback does nothing further; when `buffer_size ≥ size`
it copies `size` bytes, enqueues the filled buffer with the metadata, and
notifies the worker; otherwise it logs the capacity-mismatch message and
releases the buffer back to the source. -/
def export_callback (lease : Option ((Nat → Nat) × Nat)) (data : Nat → Nat)
    (size : Nat) (metadata : image_metadata) : CbResult :=
  match lease with
  | none => { actions := [.getBufferA], buffer := none, enq := none }
  | some (buf, buffer_size) =>
    if buffer_size ≥ size then
      { actions := [.getBufferA, .copyA size, .enqueueA, .notifyA],
        buffer := some (memcpyFn buf data size),
        enq := some (memcpyFn buf data size, metadata) }
    else
      { actions := [.getBufferA, .logErrorA (capMsg buffer_size size), .releaseA],
        buffer := some buf,
        enq := none }

/-- Modulus of `uint32_t` arithmetic. -/
def U32 : Nat := 2 ^ 32

/-- Wrapping `uint32_t` subtraction `a - b` for `a b < 2^32`. -/
def sub32 (a b : Nat) : Nat := (a + U32 - b) % U32

/-- Values taken by a loop `for (v = s; v < e; ++v)` over `uint32_t`
(with `s, e < 2^32`): empty when `s ≥ e`. -/
def loopRange (s e : Nat) : List Nat := List.range' s (e - s)

/-- `constexpr size_t bpp = 3` (line 125). -/
def bpp : Nat := 3

/-- `stride = metadata.width * bpp + metadata.padding` (line 126). -/
def stride (md : image_metadata) : Nat := md.width * bpp + md.padding

/-- Byte stores of one crosshair pixel at row `y`, column `x` (lines
131-133 / 140-142): channels 0 and 1 are set to 0, channel 2 to 255. -/
def pixelWrites (st y x : Nat) : List (Nat × Nat) :=
  [(y * st + x * bpp + 0, 0), (y * st + x * bpp + 1, 0), (y * st + x * bpp + 2, 255)]

/-- Stores of the vertical crosshair bar (lines 127-135): rows
`height/2 - 100 ≤ y < height/2 + 100`, columns `width/2 - 2 ≤ x < width/2 + 2`,
with the starts computed in wrapping `uint32_t` arithmetic. -/
def vertWrites (md : image_metadata) : List (Nat × Nat) :=
  (loopRange (sub32 (md.height / 2) 100) (md.height / 2 + 100)).flatMap fun y =>
    (loopRange (sub32 (md.width / 2) 2) (md.width / 2 + 2)).flatMap fun x =>
      pixelWrites (stride md) y x

/-- Stores of the horizontal crosshair bar (lines 136-144): columns
`width/2 - 100 ≤ x < width/2 + 100`, rows `height/2 - 2 ≤ y < height/2 + 2`. -/
def horizWrites (md : image_metadata) : List (Nat × Nat) :=
  (loopRange (sub32 (md.width / 2) 100) (md.width / 2 + 100)).flatMap fun x =>
    (loopRange (sub32 (md.height / 2) 2) (md.height / 2 + 2)).flatMap fun y =>
      pixelWrites (stride md) y x

/-- Ordered list of all byte stores of the crosshair transform
(lines 123-144): vertical bar first, then horizontal bar. -/
def crosshairWrites (md : image_metadata) : List (Nat × Nat) :=
  vertWrites md ++ horizWrites md

/-- Single byte store into a frame. -/
def writeByte (f : Nat → Nat) (idx v : Nat) : Nat → Nat :=
  fun i => if i = idx then v else f i

/-- Sequential application of a list of byte stores (later stores win). -/
def applyWrites (f : Nat → Nat) (ws : List (Nat × Nat)) : Nat → Nat :=
  ws.foldl (fun g p => writeByte g p.1 p.2) f

/-- In-place crosshair transform applied by the worker to a dequeued frame
(lines 123-144): the frame is a total map from byte index to byte value. -/
def drawCrosshair (md : image_metadata) (f : Nat → Nat) : Nat → Nat :=
  applyWrites f (crosshairWrites md)

/-- Metadata of the spec's end-to-end scenario: a 640×480 frame with
`stride = 640*3 + 0`. -/
def md640 : image_metadata := ⟨640, 480, 0⟩

/-- Queue entry: the leased buffer contents paired with the frame metadata
(`std::pair<void*, iff::image_metadata>`). -/
def Entry : Type := (Nat → Nat) × image_metadata

/-- Processing of one dequeued entry by the worker (lines 119-146): apply
the in-place crosshair transform, then forward buffer and metadata to the
sink via `push_import_buffer`. -/
def processEntry (e : Entry) : Entry := (drawCrosshair e.2 e.1, e.2)

/-- Shared state of the producer callback, the worker thread and the main
thread: the FIFO `processing_queue`, the history of enqueued entries, the
history of entries forwarded to the sink, the `stop_processing` flag, and
whether the worker loop has returned. -/
structure WorkerState where
  queue : List Entry
  enqueued : List Entry
  pushed : List Entry
  stop_processing : Bool
  done : Bool

/-- Transition system of the queue/worker protocol, mirroring the loop
structure of `process` (lines 112-155) and its producer (lines 168-172):
`enq` appends at the back of the FIFO while the worker has not returned;
`deq` pops the front entry, transforms it and forwards it to the sink;
`setStop` sets `stop_processing` (lines 190-193); `finish` is the worker's
`return`, taken only when the queue is observed empty with the stop flag
set — `stop_processing` is tested only after the inner drain loop has seen
the queue empty, never while an entry is pending. -/
inductive WStep : WorkerState → WorkerState → Prop where
  | enq (s : WorkerState) (e : Entry) : s.done = false →
      WStep s ⟨s.queue ++ [e], s.enqueued ++ [e], s.pushed, s.stop_processing, s.done⟩
  | deq (s : WorkerState) (e : Entry) (rest : List Entry) : s.queue = e :: rest →
      WStep s ⟨rest, s.enqueued, s.pushed ++ [processEntry e], s.stop_processing, s.done⟩
  | setStop (s : WorkerState) :
      WStep s ⟨s.queue, s.enqueued, s.pushed, true, s.done⟩
  | finish (s : WorkerState) : s.queue = [] → s.stop_processing = true → s.done = false →
      WStep s ⟨s.queue, s.enqueued, s.pushed, s.stop_processing, true⟩

/-- Initial state: empty queue, no history, stop flag clear, worker running. -/
def initState : WorkerState := ⟨[], [], [], false, false⟩

/-- Reachability of a queue/worker state from the initial state. -/
def Reach (s : WorkerState) : Prop := Relation.ReflTransGen WStep initState s

/-- Invariant of the queue/worker protocol: the forwarded entries are the
transforms of the first `pushed.length` enqueued entries, the queue holds
the remaining enqueued entries in order, and a returned worker has seen the
stop flag set with an empty queue. -/
def WInv (s : WorkerState) : Prop :=
  s.pushed = (s.enqueued.take s.pushed.length).map processEntry ∧
  s.queue = s.enqueued.drop s.pushed.length ∧
  (s.done = true → s.stop_processing = true ∧ s.queue = [])

/-- Accepted configuration whose single chain id is `"foo"`: it passes every
startup validation check yet registers neither an `"import"` nor an
`"export"` chain. -/
def cfgFoo : Except String Json :=
  .ok (.jobj [("chains", .jarr [.jobj [("id", .jstr "foo")]]), ("IFF", .jobj [])])

/-- C3: the claim states that on a null buffer lease the callback
logs/reports the exhaustion condition; but the null-buffer branch of the
callback (the `if(buffer != nullptr)` at line 163 has no `else`) performs no
action at all, so no log is emitted at the concrete invocation with a null
lease, frame size 4 and the 640×480 metadata. -/
theorem c3_counterexample :
    ¬ ∃ m, CbAction.logErrorA m ∈ (export_callback none (fun _ => 0) 4 md640).actions := by
  rintro ⟨m, hm⟩
  simp [export_callback] at hm

/-- C3 (amended): when the buffer lease returns none, the export callback
returns immediately after the lease request: nothing is copied, nothing is
enqueued, no buffer is released, and nothing is logged or reported — the
frame is dropped silently. -/
theorem c3_null_lease_silent_drop (data : Nat → Nat) (size : Nat) (md : image_metadata) :
    export_callback none data size md = ⟨[.getBufferA], none, none⟩ := rfl

/-- C4: when a buffer of capacity `C` is leased for a frame of size `S > C`,
the callback copies no bytes (the leased buffer keeps its previous
contents), enqueues nothing, releases the buffer back to the source, and
reports an error whose message contains both `C` and `S`. -/
theorem c4_capacity_mismatch (buf data : Nat → Nat) (C S : Nat) (md : image_metadata)
    (h : S > C) :
    export_callback (some (buf, C)) data S md =
      ⟨[.getBufferA, .logErrorA (capMsg C S), .releaseA], some buf, none⟩ ∧
    (∃ a b, capMsg C S = a ++ toString C ++ b) ∧
    (∃ a b, capMsg C S = a ++ toString S ++ b) := by
  refine ⟨?_, ?_, ?_⟩
  · simp only [export_callback]
    rw [if_neg (Nat.not_le.mpr h)]
  · exact ⟨"Got import buffer size less than export buffer size (",
      " < " ++ toString S ++ ")", by rw [capMsg]; simp [String.append_assoc]⟩
  · exact ⟨"Got import buffer size less than export buffer size (" ++ toString C ++ " < ",
      ")", by rw [capMsg]⟩

/-- Witness for C4 at capacity 3 and frame size 5. -/
theorem c4_capacity_mismatch_witness :
    5 > 3 ∧
    (export_callback (some ((fun _ => 1), 3)) (fun _ => 2) 5 md640 =
      ⟨[.getBufferA, .logErrorA (capMsg 3 5), .releaseA], some (fun _ => 1), none⟩ ∧
    (∃ a b, capMsg 3 5 = a ++ toString 3 ++ b) ∧
    (∃ a b, capMsg 3 5 = a ++ toString 5 ++ b)) :=
  ⟨by norm_num, c4_capacity_mismatch (fun _ => 1) (fun _ => 2) 3 5 md640 (by norm_num)⟩

/-- C8: when a buffer of capacity `C ≥ S` is leased for a frame of size `S`,
the callback leases, copies exactly `S` bytes (the first `S` bytes of the
buffer become the first `S` bytes of the data, bytes at and beyond `S` are
untouched), enqueues the filled buffer with the metadata, and notifies the
worker — in exactly that order, as the action trace records: the copy
precedes the enqueue, and the notification follows it. -/
theorem c8_copy_then_enqueue (buf data : Nat → Nat) (C S : Nat) (md : image_metadata)
    (h : C ≥ S) :
    export_callback (some (buf, C)) data S md =
      ⟨[.getBufferA, .copyA S, .enqueueA, .notifyA],
        some (memcpyFn buf data S), some (memcpyFn buf data S, md)⟩ ∧
    (∀ i, i < S → memcpyFn buf data S i = data i) ∧
    (∀ i, S ≤ i → memcpyFn buf data S i = buf i) := by
  refine ⟨?_, fun i hi => if_pos hi, fun i hi => if_neg (Nat.not_lt.mpr hi)⟩
  simp only [export_callback]
  rw [if_pos h]

/-- Witness for C8 at capacity 8 and frame size 3. -/
theorem c8_copy_then_enqueue_witness :
    8 ≥ 3 ∧
    (export_callback (some ((fun _ => 1), 8)) (fun _ => 2) 3 md640 =
      ⟨[.getBufferA, .copyA 3, .enqueueA, .notifyA],
        some (memcpyFn (fun _ => 1) (fun _ => 2) 3),
        some (memcpyFn (fun _ => 1) (fun _ => 2) 3, md640)⟩ ∧
    (∀ i, i < 3 → memcpyFn (fun _ => 1) (fun _ => 2) 3 i = (fun _ => (2:Nat)) i) ∧
    (∀ i, 3 ≤ i → memcpyFn (fun _ => 1) (fun _ => 2) 3 i = (fun _ => (1:Nat)) i)) :=
  ⟨by norm_num, c8_copy_then_enqueue (fun _ => 1) (fun _ => 2) 8 3 md640 (by norm_num)⟩

/-- Invariant `WInv` holds in the initial state. -/
theorem winv_init : WInv initState := by
  simp [WInv, initState]

/-- Invariant `WInv` is preserved by every protocol step. -/
theorem winv_step {a b : WorkerState} (h : WStep a b) (ih : WInv a) : WInv b := by
  obtain ⟨ih1, ih2, ih3⟩ := ih
  have hlen : a.pushed.length ≤ a.enqueued.length := by
    have := congrArg List.length ih1
    simp [List.length_take] at this
    omega
  cases h with
  | enq e hdone =>
    refine ⟨?_, ?_, ?_⟩
    · simpa [List.take_append_of_le_length hlen] using ih1
    · simp [List.drop_append_of_le_length hlen, ← ih2]
    · intro hd
      simp at hd
      exact absurd hd (by simp [hdone])
  | deq e rest hq =>
    have hqd : a.enqueued.drop a.pushed.length = e :: rest := by rw [← ih2, hq]
    refine ⟨?_, ?_, ?_⟩
    · have htake : a.enqueued.take (a.pushed.length + 1) = a.enqueued.take a.pushed.length ++ [e] := by
        rw [List.take_add, hqd]
        rfl
      simp only [List.length_append, List.length_singleton]
      rw [htake, List.map_append]
      simp [← ih1]
    · have hdr : a.enqueued.drop (a.pushed.length + 1) = rest := by
        rw [← List.drop_drop, hqd]
        rfl
      simp only [List.length_append, List.length_singleton]
      rw [hdr]
    · intro hd
      simp at hd
      have := (ih3 hd).2
      rw [hq] at this
      exact absurd this (by simp)
  | setStop =>
    exact ⟨ih1, ih2, fun hd => ⟨rfl, by simpa using (ih3 (by simpa using hd)).2⟩⟩
  | finish hq hs hd =>
    exact ⟨ih1, ih2, fun _ => ⟨hs, hq⟩⟩

/-- Invariant `WInv` holds in every reachable state. -/
theorem winv_reach {s : WorkerState} (h : Reach s) : WInv s := by
  induction h with
  | refl => exact winv_init
  | tail _ hstep ih => exact winv_step hstep ih

/-- C2: in every reachable state of the queue/worker protocol, the sequence
of entries forwarded to the sink is exactly the transform of the sequence of
enqueued entries, in enqueue order and without reordering, duplication or
skipping — the i-th entry processed is the i-th entry enqueued — and the
queue holds precisely the not-yet-processed enqueued entries in order. -/
theorem c2_fifo_order {s : WorkerState} (h : Reach s) :
    s.pushed = (s.enqueued.take s.pushed.length).map processEntry ∧
    s.queue = s.enqueued.drop s.pushed.length ∧
    ∀ i, i < s.pushed.length →
      ∃ e, s.enqueued[i]? = some e ∧ s.pushed[i]? = some (processEntry e) := by
  obtain ⟨h1, h2, _⟩ := winv_reach h
  refine ⟨h1, h2, fun i hi => ?_⟩
  have hlen : s.pushed.length ≤ s.enqueued.length := by
    have := congrArg List.length h1
    simp [List.length_take] at this
    omega
  have hj : i < s.enqueued.length := lt_of_lt_of_le hi hlen
  refine ⟨s.enqueued.get ⟨i, hj⟩, ?_, ?_⟩
  · rw [List.get_eq_getElem]
    exact List.getElem?_eq_getElem hj
  · rw [h1, List.getElem?_map, List.getElem?_take, if_pos hi, List.get_eq_getElem,
      List.getElem?_eq_getElem hj]
    rfl

/-- Witness for C2: state reached by enqueuing two entries and letting the
worker process the first. -/
theorem c2_fifo_order_witness :
    (Reach ⟨[((fun _ => 1), md640)], [((fun _ => 0), md640), ((fun _ => 1), md640)],
        [processEntry ((fun _ => 0), md640)], false, false⟩ ∧
      [processEntry ((fun _ => 0), md640)] =
        (([((fun _ => 0 : Nat → Nat), md640), ((fun _ => 1), md640)].take 1).map processEntry)) := by
  have h1 : WStep initState ⟨[((fun _ => 0), md640)], [((fun _ => 0), md640)], [], false, false⟩ :=
    WStep.enq initState ((fun _ => 0), md640) rfl
  have h2 : WStep ⟨[((fun _ => 0), md640)], [((fun _ => 0), md640)], [], false, false⟩
      ⟨[((fun _ => 0), md640), ((fun _ => 1), md640)],
        [((fun _ => 0), md640), ((fun _ => 1), md640)], [], false, false⟩ :=
    WStep.enq _ ((fun _ => 1), md640) rfl
  have h3 : WStep ⟨[((fun _ => 0), md640), ((fun _ => 1), md640)],
        [((fun _ => 0), md640), ((fun _ => 1), md640)], [], false, false⟩
      ⟨[((fun _ => 1), md640)], [((fun _ => 0), md640), ((fun _ => 1), md640)],
        [processEntry ((fun _ => 0), md640)], false, false⟩ :=
    WStep.deq _ ((fun _ => 0), md640) [((fun _ => 1), md640)] rfl
  have hr : Reach ⟨[((fun _ => 1), md640)], [((fun _ => 0), md640), ((fun _ => 1), md640)],
      [processEntry ((fun _ => 0), md640)], false, false⟩ :=
    Relation.ReflTransGen.tail (Relation.ReflTransGen.tail
      (Relation.ReflTransGen.tail Relation.ReflTransGen.refl h1) h2) h3
  exact ⟨hr, (c2_fifo_order hr).1⟩

/-- C1: whenever the worker loop has returned (`done`), it has observed the
queue empty with the stop flag set — the `finish` transition, mirroring the
`return` of `process`, fires only in that situation, never while an entry is
pending — and every entry ever enqueued has been transformed and forwarded
to the sink via `push_import_buffer` before the return: shutdown drains and
drops nothing. -/
theorem c1_drain_on_shutdown {s : WorkerState} (h : Reach s) (hd : s.done = true) :
    s.stop_processing = true ∧ s.queue = [] ∧
    s.pushed = s.enqueued.map processEntry := by
  obtain ⟨h1, h2, h3⟩ := winv_reach h
  obtain ⟨hstop, hq⟩ := h3 hd
  have hlen : s.pushed.length ≤ s.enqueued.length := by
    have := congrArg List.length h1
    simp [List.length_take] at this
    omega
  have hge : s.enqueued.length ≤ s.pushed.length := by
    rw [hq] at h2
    exact List.drop_eq_nil_iff.mp h2.symm
  have : s.enqueued.take s.pushed.length = s.enqueued := List.take_of_length_le hge
  rw [this] at h1
  exact ⟨hstop, hq, h1⟩

/-- Witness for C1: one entry is enqueued, the stop flag is set, the worker
drains the entry and then returns; the single enqueued entry was forwarded. -/
theorem c1_drain_on_shutdown_witness :
    (Reach ⟨[], [((fun _ => 0), md640)], [processEntry ((fun _ => 0), md640)], true, true⟩ ∧
      [processEntry ((fun _ => 0), md640)] =
        ([((fun _ => 0 : Nat → Nat), md640)]).map processEntry) := by
  have h1 : WStep initState ⟨[((fun _ => 0), md640)], [((fun _ => 0), md640)], [], false, false⟩ :=
    WStep.enq initState ((fun _ => 0), md640) rfl
  have h2 : WStep ⟨[((fun _ => 0), md640)], [((fun _ => 0), md640)], [], false, false⟩
      ⟨[((fun _ => 0), md640)], [((fun _ => 0), md640)], [], true, false⟩ :=
    WStep.setStop _
  have h3 : WStep ⟨[((fun _ => 0), md640)], [((fun _ => 0), md640)], [], true, false⟩
      ⟨[], [((fun _ => 0), md640)], [processEntry ((fun _ => 0), md640)], true, false⟩ :=
    WStep.deq _ ((fun _ => 0), md640) [] rfl
  have h4 : WStep ⟨[], [((fun _ => 0), md640)], [processEntry ((fun _ => 0), md640)], true, false⟩
      ⟨[], [((fun _ => 0), md640)], [processEntry ((fun _ => 0), md640)], true, true⟩ :=
    WStep.finish _ rfl rfl rfl
  have hr : Reach ⟨[], [((fun _ => 0), md640)], [processEntry ((fun _ => 0), md640)], true, true⟩ :=
    Relation.ReflTransGen.tail (Relation.ReflTransGen.tail (Relation.ReflTransGen.tail
      (Relation.ReflTransGen.tail Relation.ReflTransGen.refl h1) h2) h3) h4
  exact ⟨hr, (c1_drain_on_shutdown hr rfl).2.2⟩

/-- Unfolding of `mainRun` on an accepted configuration whose registry has
an `"export"` entry: the full startup/shutdown trace with normal exit 0. -/
theorem mainRun_accept_export {input : Except String Json} {elems : List Json}
    (h : validate input = .ok elems)
    (hex : (((buildChains (chainIds elems)).1.find? (fun p => p.1 == "export")).isSome) = true) :
    mainRun input =
      (.initializeIFF :: (buildChains (chainIds elems)).2 ++
        [.startWorker, .setExportCallbackA, .executeOnCmd, .executeOffCmd,
         .setStopFlag, .joinWorker, .clearChains, .finalizeIFF],
       some 0, (buildChains (chainIds elems)).1) := by
  simp [mainRun, h, hex]

/-- Unfolding of `mainRun` on an accepted configuration whose registry has
no `"export"` entry: the run starts the worker and then faults at the null
chain handle dereference of `chains["export"]` (line 158), never reaching
the callback registration, the commands or a normal exit. -/
theorem mainRun_accept_noexport {input : Except String Json} {elems : List Json}
    (h : validate input = .ok elems)
    (hex : (((buildChains (chainIds elems)).1.find? (fun p => p.1 == "export")).isSome) = false) :
    mainRun input =
      (.initializeIFF :: (buildChains (chainIds elems)).2 ++
        [.startWorker, .faultNullChain "export"],
       none, (buildChains (chainIds elems)).1) := by
  simp [mainRun, h, hex]

/-- C9: a configuration is rejected (process exits `EXIT_FAILURE`) exactly
under the five conditions the spec lists — unparseable input, missing
`chains`, `chains` not an array, `chains` empty, missing `IFF`
(`specRejects`, written from the spec's words); on rejection the only
action is one descriptive message on the error stream and the exit status
is `EXIT_FAILURE`, with no pipeline constructed and no subsystem
initialization; on acceptance startup proceeds (beginning with subsystem
initialization) and a normal completion — the only way the run returns
from `main` — exits with status 0. -/
theorem c9_validation_fatal (input : Except String Json) :
    ((mainRun input).2.1 = some 1 ↔ specRejects input = true) ∧
    (specRejects input = true →
      ∃ rest, (mainRun input).1 = [.errOut ("Invalid configuration provided: " ++ rest)] ∧
        (mainRun input).2.1 = some 1) ∧
    (specRejects input = false →
      (∃ tl, (mainRun input).1 = .initializeIFF :: tl) ∧
      ∀ n, (mainRun input).2.1 = some n → n = 0) := by
  cases input with
  | error e =>
    refine ⟨by simp [mainRun, validate, specRejects],
      fun _ => ⟨e, by simp [mainRun, validate], by simp [mainRun, validate]⟩,
      fun hf => by simp [specRejects] at hf⟩
  | ok config =>
    cases hc : jfind config "chains" with
    | none =>
      exact ⟨by simp [mainRun, validate, specRejects, hc],
        fun _ => ⟨"missing `chains` section", by simp [mainRun, validate, hc], by simp [mainRun, validate, hc]⟩,
        fun hf => by simp [specRejects, hc] at hf⟩
    | some chains =>
      cases chains with
      | jarr elems =>
        by_cases he : elems.isEmpty
        · exact ⟨by simp [mainRun, validate, specRejects, hc, he],
            fun _ => ⟨"section `chains` must not be empty", by simp [mainRun, validate, hc, he], by simp [mainRun, validate, hc, he]⟩,
            fun hf => by simp [specRejects, hc, he] at hf⟩
        · cases hi : jfind config "IFF" with
          | none =>
            exact ⟨by simp [mainRun, validate, specRejects, hc, he, hi],
              fun _ => ⟨"missing `IFF` section", by simp [mainRun, validate, hc, he, hi], by simp [mainRun, validate, hc, he, hi]⟩,
              fun hf => by simp [specRejects, hc, he, hi] at hf⟩
          | some iffcfg =>
            have hval : validate (.ok config) = .ok elems := by
              simp [validate, hc, he, hi]
            have hrej : specRejects (.ok config) = false := by
              simp [specRejects, hc, he, hi]
            refine ⟨?_, ?_, ?_⟩
            · rw [hrej]
              by_cases hex : (((buildChains (chainIds elems)).1.find?
                  (fun p => p.1 == "export")).isSome) = true
              · rw [mainRun_accept_export hval hex]
                simp
              · rw [mainRun_accept_noexport hval
                  (by simp only [Bool.not_eq_true] at hex; exact hex)]
                simp
            · intro ht
              rw [hrej] at ht
              cases ht
            · intro hf
              refine ⟨?_, ?_⟩
              · by_cases hex : (((buildChains (chainIds elems)).1.find?
                    (fun p => p.1 == "export")).isSome) = true
                · exact ⟨(buildChains (chainIds elems)).2 ++
                    [.startWorker, .setExportCallbackA, .executeOnCmd, .executeOffCmd,
                     .setStopFlag, .joinWorker, .clearChains, .finalizeIFF],
                    by rw [mainRun_accept_export hval hex]; rfl⟩
                · exact ⟨(buildChains (chainIds elems)).2 ++
                    [.startWorker, .faultNullChain "export"],
                    by rw [mainRun_accept_noexport hval
                      (by simp only [Bool.not_eq_true] at hex; exact hex)]; rfl⟩
              · intro n hn
                by_cases hex : (((buildChains (chainIds elems)).1.find?
                    (fun p => p.1 == "export")).isSome) = true
                · rw [mainRun_accept_export hval hex] at hn
                  exact (Option.some.inj hn).symm
                · rw [mainRun_accept_noexport hval
                    (by simp only [Bool.not_eq_true] at hex; exact hex)] at hn
                  cases hn
      | jnull =>
        exact ⟨by simp [mainRun, validate, specRejects, hc],
          fun _ => ⟨"section `chains` must be an array", by simp [mainRun, validate, hc], by simp [mainRun, validate, hc]⟩,
          fun hf => by simp [specRejects, hc] at hf⟩
      | jbool b =>
        exact ⟨by simp [mainRun, validate, specRejects, hc],
          fun _ => ⟨"section `chains` must be an array", by simp [mainRun, validate, hc], by simp [mainRun, validate, hc]⟩,
          fun hf => by simp [specRejects, hc] at hf⟩
      | jnum n =>
        exact ⟨by simp [mainRun, validate, specRejects, hc],
          fun _ => ⟨"section `chains` must be an array", by simp [mainRun, validate, hc], by simp [mainRun, validate, hc]⟩,
          fun hf => by simp [specRejects, hc] at hf⟩
      | jstr s =>
        exact ⟨by simp [mainRun, validate, specRejects, hc],
          fun _ => ⟨"section `chains` must be an array", by simp [mainRun, validate, hc], by simp [mainRun, validate, hc]⟩,
          fun hf => by simp [specRejects, hc] at hf⟩
      | jobj fields =>
        exact ⟨by simp [mainRun, validate, specRejects, hc],
          fun _ => ⟨"section `chains` must be an array", by simp [mainRun, validate, hc], by simp [mainRun, validate, hc]⟩,
          fun hf => by simp [specRejects, hc] at hf⟩

/-- Witness for C9 at an unparseable configuration. -/
theorem c9_validation_fatal_witness :
    specRejects (.error "bad parse") = true ∧
    (∃ rest, (mainRun (.error "bad parse")).1 =
        [.errOut ("Invalid configuration provided: " ++ rest)] ∧
      (mainRun (.error "bad parse")).2.1 = some 1) :=
  ⟨rfl, (c9_validation_fatal (.error "bad parse")).2.1 rfl⟩

/-- C7: the claim states that after construction from an accepted
configuration the registry contains both an "import" and an "export" entry,
or the process does not go on to start the worker, register callbacks or
issue commands.  The configuration `cfgFoo` (single chain with id "foo")
refutes it: it passes validation, the registry has neither key, and the
worker thread is still started — `main` performs no check on the registry
keys and `std::thread` at line 156 runs before the first registry access
(line 158). -/
theorem c7_counterexample :
    ¬ (∀ (input : Except String Json) (elems : List Json), validate input = .ok elems →
        (((mainRun input).2.2.find? (fun p => p.1 == "import")).isSome = true ∧
         ((mainRun input).2.2.find? (fun p => p.1 == "export")).isSome = true) ∨
        (MainAction.startWorker ∉ (mainRun input).1 ∧
         MainAction.setExportCallbackA ∉ (mainRun input).1 ∧
         MainAction.executeOnCmd ∉ (mainRun input).1)) := by
  intro hcl
  rcases hcl cfgFoo [.jobj [("id", .jstr "foo")]] rfl with ⟨him, _⟩ | ⟨hsw, _, _⟩
  · rw [show (mainRun cfgFoo).2.2 = [("foo", 0)] from rfl] at him
    simp [List.find?] at him
  · exact hsw (by
      rw [show (mainRun cfgFoo).1 = [.initializeIFF, .constructChain 0 "foo",
        .registerChain 0 "foo", .startWorker, .faultNullChain "export"] from rfl]
      simp)

/-- C7 (amended): `main` performs no check that the registry contains
"import"- or "export"-keyed entries.  For every accepted configuration the
registry after construction is exactly the one built from the configured
chain ids and the process proceeds past initialization regardless: the
worker thread is started (line 156) before the first registry access; and
when the registry has no "export" entry, the run then faults at the null
chain handle dereference of `chains["export"]` (line 158) — it is the
fault, not any check, that stops it, after the worker was already started
and with no callback registered and no command issued. -/
theorem c7_no_registry_check (input : Except String Json) (elems : List Json)
    (h : validate input = .ok elems) :
    MainAction.startWorker ∈ (mainRun input).1 ∧
    (mainRun input).2.2 = (buildChains (chainIds elems)).1 ∧
    ((((buildChains (chainIds elems)).1.find? (fun p => p.1 == "export")).isSome) = false →
      (mainRun input).1 = .initializeIFF :: (buildChains (chainIds elems)).2 ++
          [.startWorker, .faultNullChain "export"] ∧
        (mainRun input).2.1 = none) := by
  by_cases hex : (((buildChains (chainIds elems)).1.find?
      (fun p => p.1 == "export")).isSome) = true
  · rw [mainRun_accept_export h hex]
    refine ⟨by simp, rfl, fun hf => ?_⟩
    rw [hex] at hf
    cases hf
  · have hex' : (((buildChains (chainIds elems)).1.find?
        (fun p => p.1 == "export")).isSome) = false := by
      simp only [Bool.not_eq_true] at hex
      exact hex
    rw [mainRun_accept_noexport h hex']
    exact ⟨by simp, rfl, fun _ => ⟨rfl, rfl⟩⟩

/-- Witness for C7 (amended) at the accepted configuration `cfgFoo`, whose
registry has no "export" entry. -/
theorem c7_no_registry_check_witness :
    validate cfgFoo = .ok [.jobj [("id", .jstr "foo")]] ∧
    (MainAction.startWorker ∈ (mainRun cfgFoo).1 ∧
     (mainRun cfgFoo).2.2 = (buildChains (chainIds [.jobj [("id", .jstr "foo")]])).1 ∧
     ((((buildChains (chainIds [.jobj [("id", .jstr "foo")]])).1.find?
         (fun p => p.1 == "export")).isSome) = false →
       (mainRun cfgFoo).1 = .initializeIFF ::
           (buildChains (chainIds [.jobj [("id", .jstr "foo")]])).2 ++
           [.startWorker, .faultNullChain "export"] ∧
         (mainRun cfgFoo).2.1 = none)) :=
  ⟨rfl, c7_no_registry_check cfgFoo [.jobj [("id", .jstr "foo")]] rfl⟩

/-- Every chain definition is constructed: the loop body runs
`make_shared<iff::chain>` for every element of the `chains` array before
attempting registration. -/
theorem buildChainsGo_construct (ids : List String) (start : Nat) (m : List (String × Nat))
    (u : Nat) (idstr : String) (hu : ids[u]? = some idstr) :
    MainAction.constructChain (start + u) idstr ∈ (buildChainsGo ids start m).2 := by
  induction ids generalizing start m u with
  | nil => simp at hu
  | cons id rest ih =>
    cases u with
    | zero =>
      simp at hu
      subst hu
      by_cases hf : (m.find? (fun p => p.1 == id)).isSome = true
      · simp [buildChainsGo, hf]
      · simp at hf
        simp [buildChainsGo, hf]
    | succ u' =>
      have hu' : rest[u']? = some idstr := by simpa using hu
      have harith : start + (u' + 1) = (start + 1) + u' := by omega
      rw [harith]
      by_cases hf : (m.find? (fun p => p.1 == id)).isSome = true
      · have := ih (start + 1) m u' hu'
        simp [buildChainsGo, hf]
        tauto
      · simp at hf
        have := ih (start + 1) (m ++ [(id, start)]) u' hu'
        simp [buildChainsGo, hf]
        tauto

/-- Unfolding of one loop iteration whose id is already registered. -/
theorem buildChainsGo_cons_dup (id : String) (rest : List String) (start : Nat)
    (m : List (String × Nat)) (hf : (m.find? (fun p => p.1 == id)).isSome = true) :
    buildChainsGo (id :: rest) start m =
      ((buildChainsGo rest (start + 1) m).1,
        .constructChain start id :: .releaseChain start ::
          (buildChainsGo rest (start + 1) m).2) := by
  simp [buildChainsGo, hf]

/-- Unfolding of one loop iteration whose id is new to the registry. -/
theorem buildChainsGo_cons_fresh (id : String) (rest : List String) (start : Nat)
    (m : List (String × Nat)) (hf : m.find? (fun p => p.1 == id) = none) :
    buildChainsGo (id :: rest) start m =
      ((buildChainsGo rest (start + 1) (m ++ [(id, start)])).1,
        .constructChain start id :: .registerChain start id ::
          (buildChainsGo rest (start + 1) (m ++ [(id, start)])).2) := by
  simp [buildChainsGo, hf]

/-- Registration actions emitted by the loop carry an index at least the
starting chain index. -/
theorem buildChainsGo_register_ge (ids : List String) (start : Nat) (m : List (String × Nat))
    (n : Nat) (s : String)
    (h : MainAction.registerChain n s ∈ (buildChainsGo ids start m).2) : start ≤ n := by
  induction ids generalizing start m with
  | nil => simp [buildChainsGo] at h
  | cons id rest ih =>
    by_cases hf : (m.find? (fun p => p.1 == id)).isSome = true
    · rw [buildChainsGo_cons_dup id rest start m hf] at h
      rcases List.mem_cons.mp h with h1 | h'
      · exact absurd h1 (by simp)
      rcases List.mem_cons.mp h' with h2 | h3
      · exact absurd h2 (by simp)
      · have := ih (start + 1) m h3
        omega
    · have hfn : m.find? (fun p => p.1 == id) = none :=
        Option.not_isSome_iff_eq_none.mp (by simpa using hf)
      rw [buildChainsGo_cons_fresh id rest start m hfn] at h
      rcases List.mem_cons.mp h with h1 | h'
      · exact absurd h1 (by simp)
      rcases List.mem_cons.mp h' with h2 | h3
      · have hn := (MainAction.registerChain.inj h2).1
        omega
      · have := ih (start + 1) (m ++ [(id, start)]) h3
        omega

/-- A chain whose id already occurs — in the registry accumulator or
earlier in the remaining id list — is released in its own iteration and is
never registered. -/
theorem buildChainsGo_dup (ids : List String) (start : Nat) (m : List (String × Nat))
    (j : Nat) (k : String) (hj : ids[j]? = some k)
    (hdup : (m.find? (fun p => p.1 == k)).isSome = true ∨ ∃ u, u < j ∧ ids[u]? = some k) :
    MainAction.releaseChain (start + j) ∈ (buildChainsGo ids start m).2 ∧
    ∀ s, MainAction.registerChain (start + j) s ∉ (buildChainsGo ids start m).2 := by
  induction ids generalizing start m j with
  | nil => simp at hj
  | cons id rest ih =>
    cases j with
    | zero =>
      simp at hj
      subst hj
      have hf : (m.find? (fun p => p.1 == id)).isSome = true := by
        rcases hdup with h | ⟨u, hu, -⟩
        · exact h
        · omega
      rw [buildChainsGo_cons_dup id rest start m hf]
      constructor
      · simp
      · intro s hmem
        rcases List.mem_cons.mp hmem with h1 | h'
        · exact absurd h1 (by simp)
        rcases List.mem_cons.mp h' with h2 | h3
        · exact absurd h2 (by simp)
        · have := buildChainsGo_register_ge rest (start + 1) m _ s h3
          omega
    | succ j' =>
      have hj' : rest[j']? = some k := by simpa using hj
      have harith : start + (j' + 1) = (start + 1) + j' := by omega
      by_cases hf : (m.find? (fun p => p.1 == id)).isSome = true
      · have hdup' : (m.find? (fun p => p.1 == k)).isSome = true ∨
            ∃ u, u < j' ∧ rest[u]? = some k := by
          rcases hdup with h | ⟨u, hu, huk⟩
          · exact Or.inl h
          · cases u with
            | zero =>
              simp at huk
              subst huk
              exact Or.inl hf
            | succ u' =>
              exact Or.inr ⟨u', by omega, by simpa using huk⟩
        obtain ⟨hrel, hreg⟩ := ih (start + 1) m j' hj' hdup'
        rw [buildChainsGo_cons_dup id rest start m hf]
        constructor
        · rw [harith]
          exact List.mem_cons_of_mem _ (List.mem_cons_of_mem _ hrel)
        · intro s hmem
          rw [harith] at hmem
          rcases List.mem_cons.mp hmem with h1 | h'
          · exact absurd h1 (by simp)
          rcases List.mem_cons.mp h' with h2 | h3
          · exact absurd h2 (by simp)
          · exact hreg s h3
      · have hfn : m.find? (fun p => p.1 == id) = none :=
          Option.not_isSome_iff_eq_none.mp (by simpa using hf)
        have hdup' : ((m ++ [(id, start)]).find? (fun p => p.1 == k)).isSome = true ∨
            ∃ u, u < j' ∧ rest[u]? = some k := by
          rcases hdup with h | ⟨u, hu, huk⟩
          · left
            rw [List.find?_append]
            cases hfind : m.find? (fun p => p.1 == k) with
            | none => rw [hfind] at h; simp at h
            | some p => simp
          · cases u with
            | zero =>
              simp at huk
              subst huk
              left
              rw [List.find?_append, hfn]
              simp
            | succ u' =>
              exact Or.inr ⟨u', by omega, by simpa using huk⟩
        obtain ⟨hrel, hreg⟩ := ih (start + 1) (m ++ [(id, start)]) j' hj' hdup'
        rw [buildChainsGo_cons_fresh id rest start m hfn]
        constructor
        · rw [harith]
          exact List.mem_cons_of_mem _ (List.mem_cons_of_mem _ hrel)
        · intro s hmem
          rw [harith] at hmem
          rcases List.mem_cons.mp hmem with h1 | h'
          · exact absurd h1 (by simp)
          rcases List.mem_cons.mp h' with h2 | h3
          · have hn := (MainAction.registerChain.inj h2).1
            omega
          · exact hreg s h3

/-- Characterization of the registry built by the loop: every entry either
was already in the accumulator, or is the first occurrence of its id among
the processed ids. -/
theorem buildChainsGo_mem (ids : List String) (start : Nat) (m : List (String × Nat))
    (k : String) (v : Nat) (h : (k, v) ∈ (buildChainsGo ids start m).1) :
    (k, v) ∈ m ∨ (m.find? (fun p => p.1 == k) = none ∧
      ∃ u, ids[u]? = some k ∧ v = start + u ∧ ∀ u', u' < u → ids[u']? ≠ some k) := by
  induction ids generalizing start m with
  | nil =>
    simp [buildChainsGo] at h
    exact Or.inl h
  | cons id rest ih =>
    by_cases hf : (m.find? (fun p => p.1 == id)).isSome = true
    · rw [buildChainsGo_cons_dup id rest start m hf] at h
      rcases ih (start + 1) m h with hm | ⟨hnone, u, hu, hv, hmin⟩
      · exact Or.inl hm
      · refine Or.inr ⟨hnone, u + 1, by simpa using hu, by omega, ?_⟩
        intro u' hu'
        cases u' with
        | zero =>
          intro heq
          simp at heq
          subst heq
          rw [hnone] at hf
          simp at hf
        | succ u'' =>
          have := hmin u'' (by omega)
          simpa using this
    · have hfn : m.find? (fun p => p.1 == id) = none :=
        Option.not_isSome_iff_eq_none.mp (by simpa using hf)
      rw [buildChainsGo_cons_fresh id rest start m hfn] at h
      rcases ih (start + 1) (m ++ [(id, start)]) h with hm | ⟨hnone, u, hu, hv, hmin⟩
      · rcases List.mem_append.mp hm with h1 | h2
        · exact Or.inl h1
        · simp at h2
          obtain ⟨hk, hv⟩ := h2
          subst hk
          subst hv
          refine Or.inr ⟨hfn, 0, by simp, by omega, fun u' hu' => by omega⟩
      · have hfm : m.find? (fun p => p.1 == k) = none := by
          rw [List.find?_append] at hnone
          cases hfind : m.find? (fun p => p.1 == k) with
          | none => rfl
          | some p => rw [hfind] at hnone; simp at hnone
        have hidk : ¬ id = k := by
          intro heq
          subst heq
          rw [List.find?_append, hfn] at hnone
          simp at hnone
        refine Or.inr ⟨hfm, u + 1, by simpa using hu, by omega, ?_⟩
        intro u' hu'
        cases u' with
        | zero =>
          intro heq
          simp at heq
          exact hidk heq
        | succ u'' =>
          have := hmin u'' (by omega)
          simpa using this

/-- C10: when the `chains` array carries two definitions with the same id at
positions `i < j`, the chain at position `j` is still constructed, but it is
never registered and is released in its own loop iteration; and every
registry entry maps an id to the index of the first definition carrying that
id, so the registry retains only the chain from the first definition. -/
theorem c10_duplicate_id_first_wins (ids : List String) (i j : Nat) (k : String)
    (hi : ids[i]? = some k) (hj : ids[j]? = some k) (hij : i < j) :
    (∀ u idstr, ids[u]? = some idstr →
      MainAction.constructChain u idstr ∈ (buildChains ids).2) ∧
    MainAction.releaseChain j ∈ (buildChains ids).2 ∧
    (∀ s, MainAction.registerChain j s ∉ (buildChains ids).2) ∧
    (∀ k' v, (k', v) ∈ (buildChains ids).1 →
      ids[v]? = some k' ∧ ∀ u, u < v → ids[u]? ≠ some k') := by
  have hdup := buildChainsGo_dup ids 0 [] j k hj (Or.inr ⟨i, hij, hi⟩)
  refine ⟨fun u idstr hu => ?_, ?_, fun s => ?_, fun k' v hv => ?_⟩
  · have := buildChainsGo_construct ids 0 [] u idstr hu
    simpa [buildChains] using this
  · have := hdup.1
    simpa [buildChains] using this
  · have := hdup.2 s
    simpa [buildChains] using this
  · rcases buildChainsGo_mem ids 0 [] k' v hv with hm | ⟨_, u, hu, hveq, hmin⟩
    · simp at hm
    · refine ⟨?_, ?_⟩
      · rw [show v = u from by omega]
        exact hu
      · intro u' hu'
        exact hmin u' (by omega)

/-- Witness for C10 at the id list ["a", "b", "a"] with the duplicate at
positions 0 and 2. -/
theorem c10_duplicate_id_first_wins_witness :
    (["a", "b", "a"] : List String)[0]? = some "a" ∧
    (["a", "b", "a"] : List String)[2]? = some "a" ∧
    (MainAction.releaseChain 2 ∈ (buildChains ["a", "b", "a"]).2 ∧
     ∀ s, MainAction.registerChain 2 s ∉ (buildChains ["a", "b", "a"]).2) := by
  have h := c10_duplicate_id_first_wins ["a", "b", "a"] 0 2 "a" rfl rfl (by omega)
  exact ⟨rfl, rfl, h.2.1, h.2.2.1⟩

/-- Membership in the value list of a `uint32_t` counting loop. -/
theorem mem_loopRange {s e y : Nat} : y ∈ loopRange s e ↔ s ≤ y ∧ y < e := by
  rw [loopRange, List.mem_range'_1]
  omega

/-- Membership in the three byte stores of one crosshair pixel. -/
theorem mem_pixelWrites {st y x : Nat} {p : Nat × Nat} :
    p ∈ pixelWrites st y x ↔
      ∃ c, c < 3 ∧ p = (y * st + x * bpp + c, if c = 2 then 255 else 0) := by
  constructor
  · intro hp
    simp only [pixelWrites, List.mem_cons, List.not_mem_nil, or_false] at hp
    rcases hp with rfl | rfl | rfl
    · exact ⟨0, by omega, rfl⟩
    · exact ⟨1, by omega, rfl⟩
    · exact ⟨2, by omega, rfl⟩
  · rintro ⟨c, hc, rfl⟩
    interval_cases c
    · exact List.mem_cons_self _ _
    · exact List.mem_cons_of_mem _ (List.mem_cons_self _ _)
    · exact List.mem_cons_of_mem _ (List.mem_cons_of_mem _ (List.mem_cons_self _ _))

/-- Every store of the vertical bar targets a pixel inside the frame:
row below `height`, column below `width`, channel below 3. -/
theorem vertWrites_shape {md : image_metadata} {p : Nat × Nat}
    (hw : md.width < U32) (hh : md.height < U32) (hp : p ∈ vertWrites md) :
    ∃ y x c, y < md.height ∧ x < md.width ∧ c < 3 ∧
      p.1 = y * stride md + x * bpp + c := by
  rw [vertWrites] at hp
  rw [List.mem_flatMap] at hp
  obtain ⟨y, hy, hp⟩ := hp
  rw [List.mem_flatMap] at hp
  obtain ⟨x, hx, hp⟩ := hp
  rw [mem_loopRange] at hy hx
  obtain ⟨c, hc, rfl⟩ := mem_pixelWrites.mp hp
  refine ⟨y, x, c, ?_, ?_, hc, rfl⟩
  · have := hy.1
    have := hy.2
    rw [sub32, U32] at *
    omega
  · have := hx.1
    have := hx.2
    rw [sub32, U32] at *
    omega

/-- Every store of the horizontal bar targets a pixel inside the frame. -/
theorem horizWrites_shape {md : image_metadata} {p : Nat × Nat}
    (hw : md.width < U32) (hh : md.height < U32) (hp : p ∈ horizWrites md) :
    ∃ y x c, y < md.height ∧ x < md.width ∧ c < 3 ∧
      p.1 = y * stride md + x * bpp + c := by
  rw [horizWrites] at hp
  rw [List.mem_flatMap] at hp
  obtain ⟨x, hx, hp⟩ := hp
  rw [List.mem_flatMap] at hp
  obtain ⟨y, hy, hp⟩ := hp
  rw [mem_loopRange] at hy hx
  obtain ⟨c, hc, rfl⟩ := mem_pixelWrites.mp hp
  refine ⟨y, x, c, ?_, ?_, hc, rfl⟩
  · have := hy.1
    have := hy.2
    rw [sub32, U32] at *
    omega
  · have := hx.1
    have := hx.2
    rw [sub32, U32] at *
    omega

/-- A pixel address inside the frame is inside the buffer. -/
theorem pixel_index_lt {md : image_metadata} {y x c : Nat}
    (hy : y < md.height) (hx : x < md.width) (hc : c < 3) :
    y * stride md + x * bpp + c < md.height * stride md := by
  have hxc : x * bpp + c < stride md := by
    rw [stride, bpp] at *
    omega
  calc y * stride md + x * bpp + c < y * stride md + stride md := by omega
    _ = (y + 1) * stride md := by ring
    _ ≤ md.height * stride md := Nat.mul_le_mul_right _ (by omega)

/-- C5: for every frame metadata (any `uint32_t` width, height and padding),
every byte index stored to by the in-place transform has the form
`row * stride + col * bpp + channel` with the row below `height`, the column
below `width` and the channel below 3, and hence lies within
`[0, height * stride)`; the transform reads no buffer byte at all (every
store writes a constant), so no out-of-bounds access occurs. -/
theorem c5_transform_in_bounds (md : image_metadata)
    (hw : md.width < U32) (hh : md.height < U32) :
    ∀ p ∈ crosshairWrites md,
      (∃ y x c, y < md.height ∧ x < md.width ∧ c < 3 ∧
        p.1 = y * stride md + x * bpp + c) ∧
      p.1 < md.height * stride md := by
  intro p hp
  rcases List.mem_append.mp hp with hv | hz
  · obtain ⟨y, x, c, hy, hx, hc, he⟩ := vertWrites_shape hw hh hv
    exact ⟨⟨y, x, c, hy, hx, hc, he⟩, he ▸ pixel_index_lt hy hx hc⟩
  · obtain ⟨y, x, c, hy, hx, hc, he⟩ := horizWrites_shape hw hh hz
    exact ⟨⟨y, x, c, hy, hx, hc, he⟩, he ▸ pixel_index_lt hy hx hc⟩

/-- Witness for C5 at the 640×480 metadata and the first store of the
vertical bar. -/
theorem c5_transform_in_bounds_witness :
    md640.width < U32 ∧ md640.height < U32 ∧
    (140 * 1920 + 318 * 3 + 0, 0) ∈ crosshairWrites md640 ∧
    ((∃ y x c, y < md640.height ∧ x < md640.width ∧ c < 3 ∧
        (140 * 1920 + 318 * 3 + 0, (0:Nat)).1 = y * stride md640 + x * bpp + c) ∧
      (140 * 1920 + 318 * 3 + 0, (0:Nat)).1 < md640.height * stride md640) := by
  have hw : md640.width < U32 := by norm_num [md640, U32]
  have hh : md640.height < U32 := by norm_num [md640, U32]
  have hmem : (140 * 1920 + 318 * 3 + 0, (0:Nat)) ∈ crosshairWrites md640 := by
    rw [crosshairWrites, List.mem_append]
    left
    rw [vertWrites, List.mem_flatMap]
    refine ⟨140, mem_loopRange.mpr ⟨?_, ?_⟩, ?_⟩
    · norm_num [md640, sub32, U32]
    · norm_num [md640]
    rw [List.mem_flatMap]
    refine ⟨318, mem_loopRange.mpr ⟨?_, ?_⟩, ?_⟩
    · norm_num [md640, sub32, U32]
    · norm_num [md640]
    exact mem_pixelWrites.mpr ⟨0, by omega, by norm_num [md640, stride, bpp]⟩
  exact ⟨hw, hh, hmem, c5_transform_in_bounds md640 hw hh _ hmem⟩

/-- A byte index never stored to keeps its original value. -/
theorem applyWrites_of_not_mem {f : Nat → Nat} {ws : List (Nat × Nat)} {i : Nat}
    (h : ∀ p ∈ ws, p.1 ≠ i) : applyWrites f ws i = f i := by
  induction ws generalizing f with
  | nil => rfl
  | cons p rest ih =>
    have hstep : applyWrites f (p :: rest) i = applyWrites (writeByte f p.1 p.2) rest i := rfl
    rw [hstep, ih (fun q hq => h q (List.mem_cons_of_mem _ hq)), writeByte]
    exact if_neg (Ne.symm (h p (List.mem_cons_self _ _)))

/-- A byte index all of whose stores write the same value `v` holds `v`
after the stores are applied, provided at least one store targets it. -/
theorem applyWrites_of_mem {f : Nat → Nat} {ws : List (Nat × Nat)} {i v : Nat}
    (hval : ∀ p ∈ ws, p.1 = i → p.2 = v)
    (hmem : ∃ p ∈ ws, p.1 = i) : applyWrites f ws i = v := by
  induction ws generalizing f with
  | nil =>
    obtain ⟨p, hp, -⟩ := hmem
    cases hp
  | cons p rest ih =>
    have hstep : applyWrites f (p :: rest) i = applyWrites (writeByte f p.1 p.2) rest i := rfl
    rw [hstep]
    by_cases hr : ∃ q ∈ rest, q.1 = i
    · exact ih (fun q hq => hval q (List.mem_cons_of_mem _ hq)) hr
    · push_neg at hr
      rw [applyWrites_of_not_mem hr]
      obtain ⟨q, hq, hqi⟩ := hmem
      rcases List.mem_cons.mp hq with rfl | hq'
      · rw [writeByte, if_pos hqi.symm]
        exact hval q (List.mem_cons_self _ _) hqi
      · exact absurd hqi (hr q hq')

/-- Stores of the crosshair transform on the 640×480 frame with
`stride = 1920`: exactly the bytes of the vertical bar
(rows 140-339, columns 318-321) and of the horizontal bar
(rows 238-241, columns 220-419), channels 0 and 1 set to 0, channel 2 set
to 255. -/
theorem mem_crosshairWrites_640 {p : Nat × Nat} :
    p ∈ crosshairWrites md640 ↔
      ∃ y x c, c < 3 ∧
        ((140 ≤ y ∧ y < 340 ∧ 318 ≤ x ∧ x < 322) ∨
         (238 ≤ y ∧ y < 242 ∧ 220 ≤ x ∧ x < 420)) ∧
        p = (y * 1920 + x * 3 + c, if c = 2 then 255 else 0) := by
  have h1 : sub32 (md640.height / 2) 100 = 140 := by norm_num [md640, sub32, U32]
  have h2 : md640.height / 2 + 100 = 340 := by norm_num [md640]
  have h3 : sub32 (md640.width / 2) 2 = 318 := by norm_num [md640, sub32, U32]
  have h4 : md640.width / 2 + 2 = 322 := by norm_num [md640]
  have h5 : sub32 (md640.width / 2) 100 = 220 := by norm_num [md640, sub32, U32]
  have h6 : md640.width / 2 + 100 = 420 := by norm_num [md640]
  have h7 : sub32 (md640.height / 2) 2 = 238 := by norm_num [md640, sub32, U32]
  have h8 : md640.height / 2 + 2 = 242 := by norm_num [md640]
  have hst : stride md640 = 1920 := by norm_num [md640, stride, bpp]
  have hb : bpp = 3 := rfl
  rw [crosshairWrites, List.mem_append, vertWrites, horizWrites, h1, h2, h3, h4, h5, h6,
    h7, h8, hst]
  constructor
  · rintro (hv | hz)
    · rw [List.mem_flatMap] at hv
      obtain ⟨y, hy, hv⟩ := hv
      rw [List.mem_flatMap] at hv
      obtain ⟨x, hx, hv⟩ := hv
      rw [mem_loopRange] at hy hx
      obtain ⟨c, hc, rfl⟩ := mem_pixelWrites.mp hv
      exact ⟨y, x, c, hc, Or.inl ⟨hy.1, hy.2, hx.1, hx.2⟩, by rw [hb]⟩
    · rw [List.mem_flatMap] at hz
      obtain ⟨x, hx, hz⟩ := hz
      rw [List.mem_flatMap] at hz
      obtain ⟨y, hy, hz⟩ := hz
      rw [mem_loopRange] at hy hx
      obtain ⟨c, hc, rfl⟩ := mem_pixelWrites.mp hz
      exact ⟨y, x, c, hc, Or.inr ⟨hy.1, hy.2, hx.1, hx.2⟩, by rw [hb]⟩
  · rintro ⟨y, x, c, hc, hreg | hreg, rfl⟩
    · left
      rw [List.mem_flatMap]
      refine ⟨y, mem_loopRange.mpr ⟨hreg.1, hreg.2.1⟩, ?_⟩
      rw [List.mem_flatMap]
      refine ⟨x, mem_loopRange.mpr ⟨hreg.2.2.1, hreg.2.2.2⟩, ?_⟩
      exact mem_pixelWrites.mpr ⟨c, hc, by rw [hb]⟩
    · right
      rw [List.mem_flatMap]
      refine ⟨x, mem_loopRange.mpr ⟨hreg.2.2.1, hreg.2.2.2⟩, ?_⟩
      rw [List.mem_flatMap]
      refine ⟨y, mem_loopRange.mpr ⟨hreg.1, hreg.2.1⟩, ?_⟩
      exact mem_pixelWrites.mpr ⟨c, hc, by rw [hb]⟩

/-- Decomposition `i = y * 1920 + x * 3 + c` with `x < 640` and `c < 3` is
unique: it is the row/column/channel decoding of the byte index. -/
theorem decode640 {i y x c : Nat} (h : y * 1920 + x * 3 + c = i) (hx : x < 640)
    (hc : c < 3) : y = i / 1920 ∧ x = (i % 1920) / 3 ∧ c = i % 3 := by
  omega

/-- Characterization of the crosshair transform on a 640×480 frame with
`stride = 1920`: a byte on one of the two crosshair bars is set to 255 on
channel 2 and to 0 on channels 0 and 1; every other byte — including every
byte of the central 200×200 region off the bars — keeps its original
value. -/
theorem drawCrosshair_640_char (f : Nat → Nat) (i : Nat) :
    drawCrosshair md640 f i =
      if (140 ≤ i / 1920 ∧ i / 1920 < 340 ∧ 318 ≤ (i % 1920) / 3 ∧ (i % 1920) / 3 < 322)
        ∨ (238 ≤ i / 1920 ∧ i / 1920 < 242 ∧ 220 ≤ (i % 1920) / 3 ∧ (i % 1920) / 3 < 420)
      then (if i % 3 = 2 then 255 else 0) else f i := by
  rw [drawCrosshair]
  by_cases hreg :
      (140 ≤ i / 1920 ∧ i / 1920 < 340 ∧ 318 ≤ (i % 1920) / 3 ∧ (i % 1920) / 3 < 322)
        ∨ (238 ≤ i / 1920 ∧ i / 1920 < 242 ∧ 220 ≤ (i % 1920) / 3 ∧ (i % 1920) / 3 < 420)
  · rw [if_pos hreg]
    apply applyWrites_of_mem
    · rintro p hp hpi
      obtain ⟨y', x', c', hc', hreg', rfl⟩ := mem_crosshairWrites_640.mp hp
      have hx' : x' < 640 := by
        rcases hreg' with ⟨-, -, -, h4⟩ | ⟨-, -, -, h4⟩ <;> omega
      obtain ⟨-, -, hc2⟩ := decode640 hpi hx' hc'
      show (if c' = 2 then 255 else 0) = if i % 3 = 2 then 255 else 0
      rw [hc2]
    · refine ⟨(i / 1920 * 1920 + (i % 1920) / 3 * 3 + i % 3,
        if i % 3 = 2 then 255 else 0), ?_, ?_⟩
      · exact mem_crosshairWrites_640.mpr
          ⟨i / 1920, (i % 1920) / 3, i % 3, by omega, hreg, rfl⟩
      · show i / 1920 * 1920 + (i % 1920) / 3 * 3 + i % 3 = i
        omega
  · rw [if_neg hreg]
    apply applyWrites_of_not_mem
    intro p hp
    obtain ⟨y', x', c', hc', hreg', rfl⟩ := mem_crosshairWrites_640.mp hp
    intro hpi
    have hx' : x' < 640 := by
      rcases hreg' with ⟨-, -, -, h4⟩ | ⟨-, -, -, h4⟩ <;> omega
    obtain ⟨hy, hx, -⟩ := decode640 hpi hx' hc'
    apply hreg
    rw [← hy, ← hx]
    exact hreg'

/-- C6: the claim states that the forwarded buffer's whole central 200×200
region (rows 140-339, columns 220-419) has its channel-2 byte set to 255 and
channels 0 and 1 set to 0, with everything outside unchanged.  The code
draws a crosshair, not a filled square: byte index 365612 — row 190, column
270, channel 2, inside the central 200×200 region but on neither bar — is
left unchanged (0 on an all-zero frame), while the claim demands 255. -/
theorem c6_counterexample :
    ¬ (∀ (f : Nat → Nat) (i : Nat), i < 480 * stride md640 →
        drawCrosshair md640 f i =
          if 140 ≤ i / 1920 ∧ i / 1920 < 340 ∧ 220 ≤ (i % 1920) / 3 ∧ (i % 1920) / 3 < 420
          then (if i % 3 = 2 then 255 else 0) else f i) := by
  intro hcl
  have h1 := hcl (fun _ => 0) 365612 (by norm_num [stride, md640, bpp])
  have h2 := drawCrosshair_640_char (fun _ => 0) 365612
  rw [if_pos (by norm_num), if_pos (by norm_num)] at h1
  rw [if_neg (by norm_num)] at h2
  rw [h2] at h1
  exact absurd h1 (by norm_num)

/-- C6 (amended): for the 640×480 frame with stride 1920 delivered through
the export callback, the forwarded buffer differs from the delivered frame
exactly on the crosshair — the vertical bar (rows 140-339, columns 318-321)
and the horizontal bar (rows 238-241, columns 220-419) — where channel 2 is
set to 255 and channels 0 and 1 to 0; every byte off the two bars,
including the rest of the central 200×200 region, equals the corresponding
byte of the delivered frame. -/
theorem c6_crosshair_overlay (f : Nat → Nat) (i : Nat) (_hi : i < 480 * stride md640) :
    drawCrosshair md640 f i =
      if (140 ≤ i / 1920 ∧ i / 1920 < 340 ∧ 318 ≤ (i % 1920) / 3 ∧ (i % 1920) / 3 < 322)
        ∨ (238 ≤ i / 1920 ∧ i / 1920 < 242 ∧ 220 ≤ (i % 1920) / 3 ∧ (i % 1920) / 3 < 420)
      then (if i % 3 = 2 then 255 else 0) else f i :=
  drawCrosshair_640_char f i

/-- Witness for C6 (amended) at byte index 461762 (row 240, column 320,
channel 2 — on both bars): the transform sets it to 255. -/
theorem c6_crosshair_overlay_witness :
    461762 < 480 * stride md640 ∧ drawCrosshair md640 (fun _ => 7) 461762 = 255 := by
  have h := c6_crosshair_overlay (fun _ => 7) 461762 (by norm_num [stride, md640, bpp])
  rw [if_pos (Or.inl (by norm_num)), if_pos (by norm_num)] at h
  exact ⟨by norm_num [stride, md640, bpp], h⟩

end ImageFilter
